import Mathlib

/-!
Verification development for `python/servo/command_base.py` of the servo build tool.

The file gives a shallow embedding of the three procedures the specification
talks about:

* `get_binary_path` (binary locator),
* `build_env` (environment composer),
* `archive_deterministically` (deterministic archiver),

and proves the specified properties about them.  Python dictionaries become
functions `String → Option String`, the filesystem tree handed to the archiver
becomes an inductive tree, results of external calls (`path.exists`,
`which ld.gold`, `git rev-parse`, `host_triple()`, `sys.platform`, ...) become
explicit parameters, and byte strings (file names compared by the fixed "C"
collation, i.e. bytewise) become `List Nat`.
-/

namespace Servo

/-- Environment dictionaries (`os.environ` and copies of it) map variable
names to string values; a missing key reads as `none`. -/
abbrev Env : Type := String → Option String

/-- Assignment `e[k] = v` on an environment dictionary. -/
def envSet (e : Env) (k v : String) : Env :=
  fun q => if q = k then some v else e q

/-- Read `e.get(k, d)`: the value at `k`, or the default `d` when absent. -/
def envGet (e : Env) (k d : String) : String :=
  (e k).getD d

theorem envSet_self (e : Env) (k v : String) : envSet e k v k = some v := by
  simp [envSet]

theorem envSet_other (e : Env) (k v q : String) (h : q ≠ k) :
    envSet e k v q = e q := by
  simp [envSet, h]

/-- Joining of two path components with the POSIX separator, modelling
`os.path.join` as used by the tool (no absolute second component arises). -/
def pathJoin (a b : String) : String := a ++ "/" ++ b

/-! ## Binary locator: `CommandBase.get_binary_path` (lines 333-376)

The function either returns a path, raises `BuildNotFound`, or calls
`sys.exit()` after printing a message.  The outcome is modelled by a sum
type; results of the two `path.exists` probes are parameters. -/

/-- Outcome of `get_binary_path`: a returned path, a raised `BuildNotFound`
exception, the `sys.exit()` taken when several profiles are built and no
preference is given, or the `sys.exit()` taken when the requested profile is
not built (`profile` is the name printed in the message). -/
inductive BinaryPathResult : Type where
  | found (p : String)
  | buildNotFound (msg : String)
  | exitMultipleProfiles
  | exitProfileNotBuilt (profile : String)
deriving DecidableEq

/-- Shallow embedding of `CommandBase.get_binary_path(release, dev, android)`.
`targetDir` is the result of `get_target_dir()`, `androidTarget` is
`config["android"]["target"]`, `binSuffix` is `BIN_SUFFIX`, and
`release_exists`/`dev_exists` are the results of the two `path.exists`
probes. -/
def get_binary_path (targetDir androidTarget binSuffix : String)
    (release dev android : Bool) (release_exists dev_exists : Bool) :
    BinaryPathResult :=
  let base_path := if android then pathJoin targetDir androidTarget else targetDir
  let binary_name := "servo" ++ binSuffix
  let release_path := pathJoin (pathJoin base_path "release") binary_name
  let dev_path := pathJoin (pathJoin base_path "debug") binary_name
  -- Prefer release if both given
  let dev := if release && dev then false else dev
  if !release_exists && !dev_exists then
    .buildNotFound "No Servo binary found. Perhaps you forgot to run ./mach build?"
  else if release && release_exists then
    .found release_path
  else if dev && dev_exists then
    .found dev_path
  else if !dev && !release && release_exists && dev_exists then
    .exitMultipleProfiles
  else if !dev && !release then
    (if release_exists then .found release_path else .found dev_path)
  else
    .exitProfileNotBuilt (if release then "release" else "dev")

/-- Release path as computed inside `get_binary_path`. -/
def releasePathOf (targetDir androidTarget binSuffix : String) (android : Bool) :
    String :=
  pathJoin
    (pathJoin (if android then pathJoin targetDir androidTarget else targetDir)
      "release")
    ("servo" ++ binSuffix)

/-- Dev (debug) path as computed inside `get_binary_path`. -/
def devPathOf (targetDir androidTarget binSuffix : String) (android : Bool) :
    String :=
  pathJoin
    (pathJoin (if android then pathJoin targetDir androidTarget else targetDir)
      "debug")
    ("servo" ++ binSuffix)

/-- Claim C8: for every call to the binary locator in which neither the
release binary nor the dev binary exists on disk, the call fails by raising
`BuildNotFound`. -/
theorem getBinaryPath_neither_raises_buildNotFound
    (targetDir androidTarget binSuffix : String) (release dev android : Bool) :
    get_binary_path targetDir androidTarget binSuffix release dev android
        false false =
      .buildNotFound
        "No Servo binary found. Perhaps you forgot to run ./mach build?" := by
  cases release <;> cases dev <;> rfl

/-- Claim C2, counterexample: with only a release build present
(`release_exists = true`, `dev_exists = false`) and preference flags
`release = false`, `dev = true`, the locator does not return the release
path; it exits after printing that the dev profile is not built. -/
theorem getBinaryPath_preferDev_onlyRelease_exits :
    get_binary_path "target" "armv7-linux-androideabi" "" false true false
        true false =
      .exitProfileNotBuilt "dev" ∧
    get_binary_path "target" "armv7-linux-androideabi" "" false true false
        true false ≠
      .found (releasePathOf "target" "armv7-linux-androideabi" "" false) := by
  exact ⟨rfl, by decide⟩

/-- Claim C2 as amended: when exactly one of the two binaries exists, the
locator returns the path of the existing binary whenever the preference
flags are unset or (after the release-wins normalization) select the
existing profile; when the normalized preference selects the missing
profile, the locator instead exits reporting that this profile is not
built. -/
theorem getBinaryPath_exactlyOne
    (targetDir androidTarget binSuffix : String) (release dev android : Bool)
    (release_exists dev_exists : Bool) (h : release_exists ≠ dev_exists) :
    get_binary_path targetDir androidTarget binSuffix release dev android
        release_exists dev_exists =
      if release_exists then
        (if dev && !release then .exitProfileNotBuilt "dev"
         else .found (releasePathOf targetDir androidTarget binSuffix android))
      else
        (if release then .exitProfileNotBuilt "release"
         else .found (devPathOf targetDir androidTarget binSuffix android)) := by
  cases release_exists <;> cases dev_exists <;> first
    | exact absurd rfl h
    | cases release <;> cases dev <;> rfl

/-- Witness for `getBinaryPath_exactlyOne` at a concrete input: only the
release build exists and the caller prefers dev, so the locator exits. -/
theorem getBinaryPath_exactlyOne_witness :
    (true : Bool) ≠ false ∧
      get_binary_path "t" "a" "" false true false true false =
        .exitProfileNotBuilt "dev" :=
  ⟨by decide, by
    have h := getBinaryPath_exactlyOne "t" "a" "" false true false true false
      (by decide)
    simpa using h⟩

/-! ## Environment composer: `CommandBase.build_env` (lines 460-585)

The function copies `os.environ`, applies a fixed sequence of conditional
overlays to the copy, and returns it.  Configuration values and the results
of all external probes are explicit parameters.  Each overlay of the source
is one `step...` definition below, and `build_env` chains them in source
order. -/

/-- Configuration values read by `build_env` (with the defaults already
applied by `CommandBase.__init__`):  `build.incremental` is tri-state. -/
structure BuildConfig : Type where
  incremental : Option Bool
  rustflags : String
  ccache : String
  thinlto : Bool
  rustcWithGold : Bool
  androidSdk : String
  androidNdk : String
  androidToolchain : String
  androidPlatform : String

/-- Ambient facts `build_env` observes about the machine: `sys.platform`,
`host_triple()`, directories from the context, `os.pathsep`,
`sys.executable`, the version table `msvc_deps`, the exit status of
`which ld.gold`, and the three git probes. -/
structure SystemState : Type where
  platform : String
  hostTriple : String
  sharedir : String
  topdir : String
  pathsep : String
  sysExecutable : String
  msvcDepVersion : String → String
  ldGoldFound : Bool
  gitIsDir : Bool
  gitSha : String
  gitDirty : Bool

/-- Python `target or host_triple()`: a `None` or empty target falls back to
the host triple. -/
def effectiveTriple (target : Option String) (host : String) : String :=
  match target with
  | none => host
  | some t => if t = "" then host else t

/-- Substring test, modelling the Python `in` operator on strings. -/
def strContainsSub (s sub : String) : Bool :=
  decide (sub.toList <:+: s.toList)

/-- Directory of an MSVC dependency package (the inner `package_dir`). -/
def packageDir (sys : SystemState) (package : String) : String :=
  pathJoin (pathJoin (pathJoin sys.sharedir "msvc-dependencies") package)
    (sys.msvcDepVersion package)

/-- Extra `PATH` entries accumulated by the MSVC branch (`extra_path`). -/
def extraPath (sys : SystemState) (target : Option String) : List String :=
  if strContainsSub (effectiveTriple target sys.hostTriple) "msvc" then
    [pathJoin (packageDir sys "cmake") "bin",
     pathJoin (packageDir sys "llvm") "bin",
     pathJoin (packageDir sys "ninja") "bin"]
  else []

/-- Extra library directories (`extra_lib`); this version of the source
never appends to the empty initial list. -/
def extraLib : List String := []

/-- Lines 473-490: MSVC include, lib and tool variables. -/
def stepMsvc (sys : SystemState) (target : Option String) (e : Env) : Env :=
  if strContainsSub (effectiveTriple target sys.hostTriple) "msvc" then
    let msvcX64 :=
      if strContainsSub (effectiveTriple target sys.hostTriple) "x86_64"
      then "64" else ""
    let e := envSet e "OPENSSL_INCLUDE_DIR"
      (pathJoin (packageDir sys "openssl") "include")
    let e := envSet e "OPENSSL_LIB_DIR"
      (pathJoin (packageDir sys "openssl") ("lib" ++ msvcX64))
    let e := envSet e "OPENSSL_LIBS" "libsslMD:libcryptoMD"
    let e := envSet e "MOZTOOLS_PATH" (pathJoin (packageDir sys "moztools") "bin")
    envSet e "LIBCLANG_PATH" (pathJoin (packageDir sys "llvm") "lib")
  else e

/-- Lines 492-496: Windows-only static overrides.  The read of
`os.environ.get("NATIVE_WIN32_PYTHON")` sees the ambient environment, which
is the base the copy was taken from. -/
def stepWindows (sys : SystemState) (osEnviron : Env) (e : Env) : Env :=
  if sys.platform = "win32" then
    let e :=
      if envGet osEnviron "NATIVE_WIN32_PYTHON" "" = "" then
        envSet e "NATIVE_WIN32_PYTHON" sys.sysExecutable
      else e
    envSet e "HARFBUZZ_SYS_NO_PKG_CONFIG" "true"
  else e

/-- Lines 498-499: prepend the accumulated tool directories to `PATH`. -/
def stepPath (sys : SystemState) (target : Option String) (e : Env) : Env :=
  if extraPath sys target ≠ [] then
    envSet e "PATH"
      (String.intercalate sys.pathsep (extraPath sys target) ++ sys.pathsep ++
        envGet e "PATH" "")
  else e

/-- Lines 501-504: the tri-state incremental flag. -/
def stepIncremental (cfg : BuildConfig) (e : Env) : Env :=
  match cfg.incremental with
  | some true => envSet e "CARGO_INCREMENTAL" "1"
  | some false => envSet e "CARGO_INCREMENTAL" "0"
  | none => e

/-- Lines 506-516: library search paths for `extra_lib` (never taken, the
list is empty in this version of the source). -/
def stepExtraLib (sys : SystemState) (e : Env) : Env :=
  if extraLib ≠ [] then
    if sys.platform = "darwin" then
      envSet e "DYLD_LIBRARY_PATH"
        (String.intercalate sys.pathsep extraLib ++ sys.pathsep ++
          envGet e "DYLD_LIBRARY_PATH" "")
    else
      envSet e "LD_LIBRARY_PATH"
        (String.intercalate sys.pathsep extraLib ++ sys.pathsep ++
          envGet e "LD_LIBRARY_PATH" "")
  else e

/-- Lines 518-526: Android tool paths from the configuration. -/
def stepAndroid (cfg : BuildConfig) (e : Env) : Env :=
  let e := if cfg.androidSdk ≠ "" then envSet e "ANDROID_SDK" cfg.androidSdk else e
  let e := if cfg.androidNdk ≠ "" then envSet e "ANDROID_NDK" cfg.androidNdk else e
  let e := if cfg.androidToolchain ≠ "" then
      envSet e "ANDROID_TOOLCHAIN" cfg.androidToolchain
    else e
  if cfg.androidPlatform ≠ "" then
    envSet e "ANDROID_PLATFORM" cfg.androidPlatform
  else e

/-- Lines 533-538: duplicate the Android variables under the names that
`build-apk` expects. -/
def stepAndroidCompat (e : Env) : Env :=
  let e := if (e "ANDROID_SDK").isSome then
      envSet e "ANDROID_HOME" (envGet e "ANDROID_SDK" "")
    else e
  let e := if (e "ANDROID_NDK").isSome then
      envSet e "NDK_HOME" (envGet e "ANDROID_NDK" "")
    else e
  if (e "ANDROID_TOOLCHAIN").isSome then
    envSet e "NDK_STANDALONE" (envGet e "ANDROID_TOOLCHAIN" "")
  else e

/-- Lines 540-541: hosts file override. -/
def stepHostsFile (hosts_file_path : Option String) (e : Env) : Env :=
  match hosts_file_path with
  | some p => if p ≠ "" then envSet e "HOST_FILE" p else e
  | none => e

/-- Lines 543-546: point `RUSTDOC` at the wrapper script unless running the
unit-test step. -/
def stepRustdoc (sys : SystemState) (test_unit : Bool) (e : Env) : Env :=
  if !test_unit then
    envSet e "RUSTDOC"
      (pathJoin (pathJoin sys.topdir "etc") "rustdoc-with-private")
  else e

/-- Lines 548-549: append the configured extra compiler flags. -/
def stepRustflagsCfg (cfg : BuildConfig) (e : Env) : Env :=
  if cfg.rustflags ≠ "" then
    envSet e "RUSTFLAGS" (envGet e "RUSTFLAGS" "" ++ " " ++ cfg.rustflags)
  else e

/-- Lines 551-554: select the gold linker when configured, off Windows, and
when `which ld.gold` succeeds. -/
def stepGold (sys : SystemState) (cfg : BuildConfig) (e : Env) : Env :=
  if cfg.rustcWithGold && (sys.platform ≠ "win32" : Bool) then
    if sys.ldGoldFound then
      envSet e "RUSTFLAGS" (envGet e "RUSTFLAGS" "" ++ " -C link-args=-fuse-ld=gold")
    else e
  else e

/-- Lines 556-557: ccache. -/
def stepCcache (cfg : BuildConfig) (e : Env) : Env :=
  if cfg.ccache ≠ "" then envSet e "CCACHE" cfg.ccache else e

/-- Whether the target name triggers the hard-float/SIMD flag. -/
def neonApplies (target : Option String) : Bool :=
  match target with
  | none => false
  | some t =>
    if t = "" then false
    else String.isPrefixOf "arm" t || String.isPrefixOf "aarch64" t

/-- Lines 559-562: hard floats and SIMD on ARM targets. -/
def stepNeon (target : Option String) (e : Env) : Env :=
  if neonApplies target then
    envSet e "RUSTFLAGS" (envGet e "RUSTFLAGS" "" ++ " -C target-feature=+neon")
  else e

/-- Line 564: unconditionally treat unused extern crates as a warning. -/
def stepWarnUnused (e : Env) : Env :=
  envSet e "RUSTFLAGS" (envGet e "RUSTFLAGS" "" ++ " -W unused-extern-crates")

/-- Python `"-".join(parts)`. -/
def joinDash : List String → String
  | [] => ""
  | [x] => x
  | x :: y :: rest => x ++ "-" ++ joinDash (y :: rest)

/-- The `git_info` list of lines 566-578. -/
def gitInfoList (sys : SystemState) (is_build : Bool) : List String :=
  if sys.gitIsDir && is_build then
    [""] ++ [sys.gitSha] ++ (if sys.gitDirty then ["dirty"] else [])
  else []

/-- Lines 566-580: derived build identifier. -/
def stepGitInfo (sys : SystemState) (is_build : Bool) (e : Env) : Env :=
  envSet e "GIT_INFO" (joinDash (gitInfoList sys is_build))

/-- Lines 582-583: link-time optimization flag. -/
def stepThinlto (cfg : BuildConfig) (e : Env) : Env :=
  if cfg.thinlto then
    envSet e "RUSTFLAGS" (envGet e "RUSTFLAGS" "" ++ " -Z thinlto")
  else e

/-- Shallow embedding of `CommandBase.build_env`: start from a copy of
`os.environ` and apply the overlays in source order.  (The win32-only
re-encoding of an already present `PATH` value at lines 463-470 is the
identity on the string contents and is not modelled.) -/
def build_env (sys : SystemState) (cfg : BuildConfig) (osEnviron : Env)
    (hosts_file_path : Option String) (target : Option String)
    (is_build : Bool) (test_unit : Bool) : Env :=
  osEnviron
  |> stepMsvc sys target
  |> stepWindows sys osEnviron
  |> stepPath sys target
  |> stepIncremental cfg
  |> stepExtraLib sys
  |> stepAndroid cfg
  |> stepAndroidCompat
  |> stepHostsFile hosts_file_path
  |> stepRustdoc sys test_unit
  |> stepRustflagsCfg cfg
  |> stepGold sys cfg
  |> stepCcache cfg
  |> stepNeon target
  |> stepWarnUnused
  |> stepGitInfo sys is_build
  |> stepThinlto cfg

/-! ### Which keys each overlay writes -/

theorem stepMsvc_preserves (sys : SystemState) (target : Option String)
    (e : Env) (q : String)
    (h1 : q ≠ "OPENSSL_INCLUDE_DIR") (h2 : q ≠ "OPENSSL_LIB_DIR")
    (h3 : q ≠ "OPENSSL_LIBS") (h4 : q ≠ "MOZTOOLS_PATH")
    (h5 : q ≠ "LIBCLANG_PATH") :
    stepMsvc sys target e q = e q := by
  unfold stepMsvc
  split
  · simp [envSet, h1, h2, h3, h4, h5]
  · rfl

theorem stepWindows_preserves (sys : SystemState) (osEnviron e : Env)
    (q : String) (h1 : q ≠ "NATIVE_WIN32_PYTHON")
    (h2 : q ≠ "HARFBUZZ_SYS_NO_PKG_CONFIG") :
    stepWindows sys osEnviron e q = e q := by
  unfold stepWindows
  split
  · simp [envSet, ite_apply, h1, h2]
  · rfl

theorem stepPath_preserves (sys : SystemState) (target : Option String)
    (e : Env) (q : String) (h : q ≠ "PATH") :
    stepPath sys target e q = e q := by
  unfold stepPath
  split
  · simp [envSet, h]
  · rfl

theorem stepIncremental_preserves (cfg : BuildConfig) (e : Env) (q : String)
    (h : q ≠ "CARGO_INCREMENTAL") :
    stepIncremental cfg e q = e q := by
  unfold stepIncremental
  rcases cfg.incremental with _ | b
  · rfl
  · cases b <;> simp [envSet, h]

theorem stepExtraLib_id (sys : SystemState) (e : Env) :
    stepExtraLib sys e = e := rfl

theorem stepAndroid_preserves (cfg : BuildConfig) (e : Env) (q : String)
    (h1 : q ≠ "ANDROID_SDK") (h2 : q ≠ "ANDROID_NDK")
    (h3 : q ≠ "ANDROID_TOOLCHAIN") (h4 : q ≠ "ANDROID_PLATFORM") :
    stepAndroid cfg e q = e q := by
  unfold stepAndroid
  simp [envSet, ite_apply, h1, h2, h3, h4]

theorem stepAndroidCompat_preserves (e : Env) (q : String)
    (h1 : q ≠ "ANDROID_HOME") (h2 : q ≠ "NDK_HOME")
    (h3 : q ≠ "NDK_STANDALONE") :
    stepAndroidCompat e q = e q := by
  simp [stepAndroidCompat, envSet, envGet, ite_apply, h1, h2, h3]

theorem stepHostsFile_preserves (hosts : Option String) (e : Env) (q : String)
    (h : q ≠ "HOST_FILE") :
    stepHostsFile hosts e q = e q := by
  rcases hosts with _ | p
  · rfl
  · simp [stepHostsFile, envSet, ite_apply, h]

theorem stepRustdoc_preserves (sys : SystemState) (test_unit : Bool) (e : Env)
    (q : String) (h : q ≠ "RUSTDOC") :
    stepRustdoc sys test_unit e q = e q := by
  unfold stepRustdoc
  split
  · simp [envSet, h]
  · rfl

theorem stepRustflagsCfg_preserves (cfg : BuildConfig) (e : Env) (q : String)
    (h : q ≠ "RUSTFLAGS") :
    stepRustflagsCfg cfg e q = e q := by
  unfold stepRustflagsCfg
  split
  · simp [envSet, h]
  · rfl

theorem stepGold_preserves (sys : SystemState) (cfg : BuildConfig) (e : Env)
    (q : String) (h : q ≠ "RUSTFLAGS") :
    stepGold sys cfg e q = e q := by
  unfold stepGold
  split
  · split
    · simp [envSet, h]
    · rfl
  · rfl

theorem stepCcache_preserves (cfg : BuildConfig) (e : Env) (q : String)
    (h : q ≠ "CCACHE") :
    stepCcache cfg e q = e q := by
  unfold stepCcache
  split
  · simp [envSet, h]
  · rfl

theorem stepNeon_preserves (target : Option String) (e : Env) (q : String)
    (h : q ≠ "RUSTFLAGS") :
    stepNeon target e q = e q := by
  unfold stepNeon
  split
  · simp [envSet, h]
  · rfl

theorem stepWarnUnused_preserves (e : Env) (q : String) (h : q ≠ "RUSTFLAGS") :
    stepWarnUnused e q = e q := by
  simp [stepWarnUnused, envSet, h]

theorem stepGitInfo_preserves (sys : SystemState) (is_build : Bool) (e : Env)
    (q : String) (h : q ≠ "GIT_INFO") :
    stepGitInfo sys is_build e q = e q := by
  simp [stepGitInfo, envSet, h]

theorem stepThinlto_preserves (cfg : BuildConfig) (e : Env) (q : String)
    (h : q ≠ "RUSTFLAGS") :
    stepThinlto cfg e q = e q := by
  unfold stepThinlto
  split
  · simp [envSet, h]
  · rfl

/-! ### How the overlays transform their own keys -/

theorem stepIncremental_at (cfg : BuildConfig) (e : Env) :
    stepIncremental cfg e "CARGO_INCREMENTAL" =
      match cfg.incremental with
      | none => e "CARGO_INCREMENTAL"
      | some true => some "1"
      | some false => some "0" := by
  unfold stepIncremental
  rcases cfg.incremental with _ | b
  · rfl
  · cases b <;> simp [envSet]

theorem stepRustflagsCfg_at (cfg : BuildConfig) (e : Env) (v : String)
    (h : e "RUSTFLAGS" = some v) :
    stepRustflagsCfg cfg e "RUSTFLAGS" =
      some (v ++ (if cfg.rustflags ≠ "" then " " ++ cfg.rustflags else "")) := by
  unfold stepRustflagsCfg
  split <;> rename_i hc <;> simp [envSet, envGet, h, hc, String.append_assoc]

/-- Combined condition of the two nested tests guarding the gold linker
flag. -/
def goldApplies (sys : SystemState) (cfg : BuildConfig) : Bool :=
  cfg.rustcWithGold && (sys.platform ≠ "win32" : Bool) && sys.ldGoldFound

theorem stepGold_at (sys : SystemState) (cfg : BuildConfig) (e : Env)
    (v : String) (h : e "RUSTFLAGS" = some v) :
    stepGold sys cfg e "RUSTFLAGS" =
      some (v ++ (if goldApplies sys cfg then " -C link-args=-fuse-ld=gold"
                  else "")) := by
  unfold stepGold goldApplies
  cases hg : cfg.rustcWithGold <;> cases hl : sys.ldGoldFound <;>
    by_cases hp : sys.platform = "win32" <;>
      simp [envSet, envGet, h, hg, hl, hp, String.append_assoc]

theorem stepNeon_at (target : Option String) (e : Env) (v : String)
    (h : e "RUSTFLAGS" = some v) :
    stepNeon target e "RUSTFLAGS" =
      some (v ++ (if neonApplies target then " -C target-feature=+neon"
                  else "")) := by
  unfold stepNeon
  split <;> rename_i hc <;> simp [envSet, envGet, h, hc]

theorem stepWarnUnused_at (e : Env) (v : String) (h : e "RUSTFLAGS" = some v) :
    stepWarnUnused e "RUSTFLAGS" = some (v ++ " -W unused-extern-crates") := by
  simp [stepWarnUnused, envSet, envGet, h]

theorem stepThinlto_at (cfg : BuildConfig) (e : Env) (v : String)
    (h : e "RUSTFLAGS" = some v) :
    stepThinlto cfg e "RUSTFLAGS" =
      some (v ++ (if cfg.thinlto then " -Z thinlto" else "")) := by
  unfold stepThinlto
  split <;> rename_i hc <;> simp [envSet, envGet, h, hc]

theorem stepGitInfo_at (sys : SystemState) (is_build : Bool) (e : Env) :
    stepGitInfo sys is_build e "GIT_INFO" =
      some (joinDash (gitInfoList sys is_build)) := by
  simp [stepGitInfo, envSet]

/-- Keys touched by overlays before the incremental step: anything else
reads unchanged through `stepMsvc`, `stepWindows` and `stepPath`. -/
theorem stage_pre_preserves (sys : SystemState) (target : Option String)
    (osEnviron : Env) (q : String)
    (hq : ¬ q ∈ ["OPENSSL_INCLUDE_DIR", "OPENSSL_LIB_DIR", "OPENSSL_LIBS",
      "MOZTOOLS_PATH", "LIBCLANG_PATH", "NATIVE_WIN32_PYTHON",
      "HARFBUZZ_SYS_NO_PKG_CONFIG", "PATH"]) :
    (osEnviron |> stepMsvc sys target |> stepWindows sys osEnviron
      |> stepPath sys target) q = osEnviron q := by
  simp only [List.mem_cons, List.not_mem_nil, or_false, not_or] at hq
  obtain ⟨n1, n2, n3, n4, n5, n6, n7, n8⟩ := hq
  rw [stepPath_preserves _ _ _ _ n8, stepWindows_preserves _ _ _ _ n6 n7,
    stepMsvc_preserves _ _ _ _ n1 n2 n3 n4 n5]

/-- Keys touched by the overlays between the incremental step and the
first `RUSTFLAGS` rule: anything else reads unchanged through them. -/
theorem stage_mid_preserves (sys : SystemState) (cfg : BuildConfig)
    (hosts : Option String) (test_unit : Bool) (e : Env) (q : String)
    (hq : ¬ q ∈ ["ANDROID_SDK", "ANDROID_NDK", "ANDROID_TOOLCHAIN",
      "ANDROID_PLATFORM", "ANDROID_HOME", "NDK_HOME", "NDK_STANDALONE",
      "HOST_FILE", "RUSTDOC"]) :
    (e |> stepExtraLib sys |> stepAndroid cfg |> stepAndroidCompat
      |> stepHostsFile hosts |> stepRustdoc sys test_unit) q = e q := by
  simp only [List.mem_cons, List.not_mem_nil, or_false, not_or] at hq
  obtain ⟨n1, n2, n3, n4, n5, n6, n7, n8, n9⟩ := hq
  rw [stepRustdoc_preserves _ _ _ _ n9, stepHostsFile_preserves _ _ _ n8,
    stepAndroidCompat_preserves _ _ n5 n6 n7,
    stepAndroid_preserves _ _ _ n1 n2 n3 n4, stepExtraLib_id]

/-- Total suffix that the `RUSTFLAGS` rules of one `build_env` call append,
in source order: configured extra flags, gold linker selection, the ARM
hard-float/SIMD flag, the unconditional lint flag, and thin LTO. -/
def rustflagsAppended (sys : SystemState) (cfg : BuildConfig)
    (target : Option String) : String :=
  (if cfg.rustflags ≠ "" then " " ++ cfg.rustflags else "")
    ++ (if goldApplies sys cfg then " -C link-args=-fuse-ld=gold" else "")
    ++ (if neonApplies target then " -C target-feature=+neon" else "")
    ++ " -W unused-extern-crates"
    ++ (if cfg.thinlto then " -Z thinlto" else "")

/-- Claim C7: when the base environment already has `RUSTFLAGS` set, every
rule appends rather than replaces: the returned value is the base value
followed by the contributions of the applicable rules in source order (so
the base value is a prefix of the result). -/
theorem buildEnv_rustflags_cumulative (sys : SystemState) (cfg : BuildConfig)
    (osEnviron : Env) (hosts target : Option String)
    (is_build test_unit : Bool) (v : String)
    (h : osEnviron "RUSTFLAGS" = some v) :
    build_env sys cfg osEnviron hosts target is_build test_unit "RUSTFLAGS" =
      some (v ++ rustflagsAppended sys cfg target) := by
  unfold build_env
  have h0 := (stage_pre_preserves sys target osEnviron "RUSTFLAGS"
    (by decide)).trans h
  have h1 := (stepIncremental_preserves cfg _ "RUSTFLAGS" (by decide)).trans h0
  have h2 := (stage_mid_preserves sys cfg hosts test_unit _ "RUSTFLAGS"
    (by decide)).trans h1
  have h3 := stepRustflagsCfg_at cfg _ _ h2
  have h4 := stepGold_at sys cfg _ _ h3
  have h5 := (stepCcache_preserves cfg _ "RUSTFLAGS" (by decide)).trans h4
  have h6 := stepNeon_at target _ _ h5
  have h7 := stepWarnUnused_at _ _ h6
  have h8 := (stepGitInfo_preserves sys is_build _ "RUSTFLAGS"
    (by decide)).trans h7
  have h9 := stepThinlto_at cfg _ _ h8
  rw [h9]
  simp [rustflagsAppended, String.append_assoc]

/-- Witness for `buildEnv_rustflags_cumulative` at a concrete input. -/
theorem buildEnv_rustflags_cumulative_witness :
    (fun q => if q = "RUSTFLAGS" then some "-D warnings" else none : Env)
        "RUSTFLAGS" = some "-D warnings" ∧
    build_env
        ⟨"linux", "x86_64-unknown-linux-gnu", "/s", "/t", ":", "/usr/bin/python",
          fun _ => "1", false, false, "", false⟩
        ⟨none, "", "", false, false, "", "", "", ""⟩
        (fun q => if q = "RUSTFLAGS" then some "-D warnings" else none)
        none none false false "RUSTFLAGS" =
      some ("-D warnings" ++
        rustflagsAppended
          ⟨"linux", "x86_64-unknown-linux-gnu", "/s", "/t", ":", "/usr/bin/python",
            fun _ => "1", false, false, "", false⟩
          ⟨none, "", "", false, false, "", "", "", ""⟩ none) :=
  ⟨by simp, buildEnv_rustflags_cumulative _ _ _ none none false false
    "-D warnings" (by simp)⟩

/-- Claim C6: the tri-state incremental flag controls `CARGO_INCREMENTAL`:
unset leaves the variable exactly as in the base environment, explicit true
sets it to "1", explicit false sets it to "0". -/
theorem buildEnv_incremental_toggle (sys : SystemState) (cfg : BuildConfig)
    (osEnviron : Env) (hosts target : Option String)
    (is_build test_unit : Bool) :
    build_env sys cfg osEnviron hosts target is_build test_unit
        "CARGO_INCREMENTAL" =
      match cfg.incremental with
      | none => osEnviron "CARGO_INCREMENTAL"
      | some true => some "1"
      | some false => some "0" := by
  unfold build_env
  rw [stepThinlto_preserves _ _ _ (by decide),
    stepGitInfo_preserves _ _ _ _ (by decide),
    stepWarnUnused_preserves _ _ (by decide),
    stepNeon_preserves _ _ _ (by decide),
    stepCcache_preserves _ _ _ (by decide),
    stepGold_preserves _ _ _ _ (by decide),
    stepRustflagsCfg_preserves _ _ _ (by decide),
    stage_mid_preserves _ _ _ _ _ _ (by decide),
    stepIncremental_at]
  rcases cfg.incremental with _ | b
  · exact stage_pre_preserves _ _ _ _ (by decide)
  · cases b <;> rfl

/-- Claim C9: `build_env` never mutates the ambient process environment: it
works on `os.environ.copy()` (line 462), every write of the source targets
this copy, and the process state the procedure returns alongside the fresh
dictionary is the one it was given. -/
structure PyWorld : Type where
  osEnviron : Env

/-- The procedure-level view of `build_env`: the pair of the returned
dictionary (built from a copy of `os.environ`) and the process state after
the call. -/
def build_env_proc (w : PyWorld) (sys : SystemState) (cfg : BuildConfig)
    (hosts target : Option String) (is_build test_unit : Bool) :
    Env × PyWorld :=
  (build_env sys cfg w.osEnviron hosts target is_build test_unit, w)

/-- Claim C9: the ambient environment after a `build_env` call is
byte-for-byte the ambient environment before it. -/
theorem buildEnv_ambient_unchanged (w : PyWorld) (sys : SystemState)
    (cfg : BuildConfig) (hosts target : Option String)
    (is_build test_unit : Bool) :
    (build_env_proc w sys cfg hosts target is_build test_unit).2.osEnviron =
        w.osEnviron ∧
      (build_env_proc w sys cfg hosts target is_build test_unit).2 = w :=
  ⟨rfl, rfl⟩

/-- Claim C10: the returned environment always contains `GIT_INFO`; it is
the empty string outside a build step or outside a git checkout, and
otherwise the dash-joined string of an empty leading component, the short
hash, and, only when the checkout is dirty, the component "dirty". -/
theorem buildEnv_gitInfo (sys : SystemState) (cfg : BuildConfig)
    (osEnviron : Env) (hosts target : Option String)
    (is_build test_unit : Bool) :
    (build_env sys cfg osEnviron hosts target is_build test_unit
        "GIT_INFO").isSome = true ∧
    build_env sys cfg osEnviron hosts target is_build test_unit "GIT_INFO" =
      some (if sys.gitIsDir && is_build then
              "-" ++ sys.gitSha ++ (if sys.gitDirty then "-dirty" else "")
            else "") := by
  have h : build_env sys cfg osEnviron hosts target is_build test_unit
      "GIT_INFO" = some (joinDash (gitInfoList sys is_build)) := by
    unfold build_env
    rw [stepThinlto_preserves _ _ _ (by decide), stepGitInfo_at]
  refine ⟨by rw [h]; rfl, ?_⟩
  rw [h]
  congr 1
  cases hg : sys.gitIsDir <;> cases hb : is_build <;>
    cases hd : sys.gitDirty <;>
      simp [gitInfoList, joinDash, hg, hb, hd, String.append_assoc,
        String.empty_append]

/-! ## Deterministic archiver: `archive_deterministically` (lines 72-108)

Paths and names are byte strings (`List Nat`), so that the fixed "C"
collation of the sort at line 94 is literally the bytewise lexicographic
order.  The source directory becomes an inductive tree whose children
carry the on-disk listing order, the per-entry metadata that `reset`
normalizes is explicit, and `os.walk` becomes a recursive enumeration.
The call is modelled with its default `prepend_path=None`; the only effect
of a prepend path is a rewrite of each stored entry name. -/

/-- Byte strings: file names, file contents and relative paths. -/
abbrev Bytes : Type := List Nat

/-- The byte of the path separator. -/
def sepByte : Nat := 47

/-- The path ".": the root entry seeded into `file_list` at line 87. -/
def rootPath : Bytes := [46]

/-- Joining a parent path and a child name, as `os.path.join` does at
line 90. -/
def pjoin (p n : Bytes) : Bytes := p ++ sepByte :: n

/-- Per-entry ownership and timestamp metadata, the part of an entry that
`reset` normalizes away. -/
structure FileMeta : Type where
  uid : Nat
  gid : Nat
  uname : String
  gname : String
  mtime : Nat

/-- Fixed metadata value used to state that two trees agree up to
metadata. -/
def blankMeta : FileMeta := ⟨0, 0, "", "", 0⟩

/-- A filesystem tree below the directory being archived.  Children of a
directory are listed in on-disk enumeration order, which `os.walk`
inherits and which varies between machines. -/
inductive FSEntry : Type where
  | file (name : Bytes) (mode : Nat) (content : Bytes) (meta : FileMeta)
  | dir (name : Bytes) (mode : Nat) (meta : FileMeta)
      (children : List FSEntry)

def entryName : FSEntry → Bytes
  | .file n _ _ _ => n
  | .dir n _ _ _ => n

def entryIsDir : FSEntry → Bool
  | .file _ _ _ _ => false
  | .dir _ _ _ _ => true

/-- What the tar layer reads from disk for one entry before the `reset`
filter runs: kind, mode, content and metadata. -/
structure TarPayload : Type where
  isDir : Bool
  mode : Nat
  content : Bytes
  meta : FileMeta

def entryPayload : FSEntry → TarPayload
  | .file _ m c meta => ⟨false, m, c, meta⟩
  | .dir _ m meta _ => ⟨true, m, [], meta⟩

/-- Payload of the archived root directory itself (the entry "."). -/
def rootPayload (rootMode : Nat) (rootMeta : FileMeta) : TarPayload :=
  ⟨true, rootMode, [], rootMeta⟩

/-- Direct children of one directory in the order `os.walk` yields them at
line 89: the subdirectory names chained before the file names, each joined
to the parent path. -/
def directEntries (p : Bytes) (cs : List FSEntry) :
    List (Bytes × TarPayload) :=
  (cs.filter entryIsDir ++ cs.filter (fun c => !entryIsDir c)).map
    (fun c => (pjoin p (entryName c), entryPayload c))

/-- Walk of the subtrees rooted at the directory children of `cs`, in
listing order: `os.walk` recursion below one directory. -/
def walkSubdirs (p : Bytes) : List FSEntry → List (Bytes × TarPayload)
  | [] => []
  | FSEntry.file _ _ _ _ :: cs => walkSubdirs p cs
  | FSEntry.dir n _ _ gs :: cs =>
      (directEntries (pjoin p n) gs ++ walkSubdirs (pjoin p n) gs)
        ++ walkSubdirs p cs

/-- Full recursive enumeration of `os.walk(p)` over a directory with
children `cs`: every path strictly below the root, with its payload. -/
def walkDir (p : Bytes) (cs : List FSEntry) : List (Bytes × TarPayload) :=
  directEntries p cs ++ walkSubdirs p cs

/-- Association of every walked path, the root "." first, with what the
tar layer will read there. -/
def archiveAssoc (rootMode : Nat) (rootMeta : FileMeta)
    (cs : List FSEntry) : List (Bytes × TarPayload) :=
  (rootPath, rootPayload rootMode rootMeta) :: walkDir rootPath cs

/-- The `file_list` of lines 87-90: the root ".", then every walked
path in walk order. -/
def file_list (cs : List FSEntry) : List Bytes :=
  rootPath :: (walkDir rootPath cs).map Prod.fst

/-- The sort of lines 93-94 under the fixed "C" collation: bytewise
lexicographic order, independent of the ambient locale. -/
def sortedFileList (cs : List FSEntry) : List Bytes :=
  List.insertionSort (· ≤ ·) (file_list cs)

/-- Lookup of a path in an association list of walked entries. -/
def lookupPath (p : Bytes) : List (Bytes × TarPayload) → Option TarPayload
  | [] => none
  | (k, v) :: rest => if p = k then some v else lookupPath p rest

/-- What the filesystem answers when `tar_file.add(entry)` stats `entry`:
the payload the walk recorded at that path (the paths of a real tree are
distinct, which the determinism theorem assumes as `(file_list cs).Nodup`). -/
def stat (rootMode : Nat) (rootMeta : FileMeta) (cs : List FSEntry)
    (p : Bytes) : Option TarPayload :=
  lookupPath p (archiveAssoc rootMode rootMeta cs)

/-- A tar member as written into the archive: its stored name, kind, mode,
content and the ownership/timestamp header fields. -/
structure TarInfo : Type where
  name : Bytes
  isDir : Bool
  mode : Nat
  content : Bytes
  uid : Nat
  gid : Nat
  uname : String
  gname : String
  mtime : Nat

/-- The tarinfo built from what was read on disk for path `p`, before the
filter runs. -/
def tarInfoOf (p : Bytes) (pl : TarPayload) : TarInfo :=
  ⟨p, pl.isDir, pl.mode, pl.content, pl.meta.uid, pl.meta.gid,
    pl.meta.uname, pl.meta.gname, pl.meta.mtime⟩

/-- Helper `reset` of lines 77-82: owner and group ids become 0, owner and
group names become "root", and the modification time becomes epoch 0. -/
def reset (tarinfo : TarInfo) : TarInfo :=
  { tarinfo with
    uid := 0, gid := 0, uname := "root", gname := "root", mtime := 0 }

/-- The produced archive: the gzip wrapper with its own header timestamp
(the `mtime=0` keyword argument of line 101) and the tar members in the
order written. -/
structure GzipTarFile : Type where
  gzipMtime : Nat
  entries : List TarInfo

/-- Shallow embedding of `archive_deterministically` (with the default
`prepend_path=None`): sort the walked `file_list` bytewise, then stream
each entry, resetting its metadata, into a tar container inside a gzip
wrapper whose timestamp field is fixed to 0. -/
def archive_deterministically (rootMode : Nat) (rootMeta : FileMeta)
    (cs : List FSEntry) : GzipTarFile :=
  { gzipMtime := 0,
    entries := (sortedFileList cs).filterMap
      (fun p => (stat rootMode rootMeta cs p).map
        (fun pl => reset (tarInfoOf p pl))) }

open List

/-- Claim C5: every tar entry the archiver writes carries the sentinel
metadata installed by `reset` (uid 0, gid 0, names "root", mtime epoch 0),
and the gzip wrapper timestamp field is fixed to epoch 0. -/
theorem archive_metadata_normalized (rootMode : Nat) (rootMeta : FileMeta)
    (cs : List FSEntry) :
    (archive_deterministically rootMode rootMeta cs).gzipMtime = 0 ∧
    ∀ e ∈ (archive_deterministically rootMode rootMeta cs).entries,
      e.uid = 0 ∧ e.gid = 0 ∧ e.uname = "root" ∧ e.gname = "root" ∧
        e.mtime = 0 := by
  refine ⟨rfl, ?_⟩
  intro e he
  simp only [archive_deterministically, List.mem_filterMap] at he
  obtain ⟨p, -, hp⟩ := he
  obtain ⟨pl, -, rfl⟩ := Option.map_eq_some'.mp hp
  simp [reset]

/-- Witness for `archive_metadata_normalized`: the sole entry of the
archive of an empty tree, whose on-disk metadata was nonzero. -/
theorem archive_metadata_normalized_witness :
    reset (tarInfoOf rootPath (rootPayload 420 ⟨1, 2, "u", "g", 3⟩)) ∈
        (archive_deterministically 420 ⟨1, 2, "u", "g", 3⟩ []).entries ∧
      ((reset (tarInfoOf rootPath (rootPayload 420 ⟨1, 2, "u", "g", 3⟩))).uid
          = 0 ∧
        (reset (tarInfoOf rootPath (rootPayload 420 ⟨1, 2, "u", "g", 3⟩))).gid
          = 0 ∧
        (reset (tarInfoOf rootPath
            (rootPayload 420 ⟨1, 2, "u", "g", 3⟩))).uname = "root" ∧
        (reset (tarInfoOf rootPath
            (rootPayload 420 ⟨1, 2, "u", "g", 3⟩))).gname = "root" ∧
        (reset (tarInfoOf rootPath
            (rootPayload 420 ⟨1, 2, "u", "g", 3⟩))).mtime = 0) := by
  have hmem : reset (tarInfoOf rootPath (rootPayload 420 ⟨1, 2, "u", "g", 3⟩)) ∈
      (archive_deterministically 420 ⟨1, 2, "u", "g", 3⟩ []).entries := by
    simp [archive_deterministically, sortedFileList, file_list, walkDir,
      directEntries, walkSubdirs, stat, archiveAssoc, lookupPath,
      List.insertionSort]
  exact ⟨hmem,
    (archive_metadata_normalized 420 ⟨1, 2, "u", "g", 3⟩ []).2 _ hmem⟩

/-! ### Bytewise order facts -/

theorem lex_append_cons (l t : Bytes) (a : Nat) :
    Lex (· < ·) l (l ++ a :: t) := by
  induction l with
  | nil => exact Lex.nil
  | cons x xs ih => exact Lex.cons ih

theorem lt_append_cons (l t : Bytes) (a : Nat) : l < l ++ a :: t :=
  lex_append_cons l t a

theorem lt_of_prefix_ne {l1 l2 : Bytes} (h : l1 <+: l2) (hne : l1 ≠ l2) :
    l1 < l2 := by
  obtain ⟨t, rfl⟩ := h
  cases t with
  | nil => simp at hne
  | cons a t => exact lt_append_cons l1 t a

/-- A sorted list whose member `x` is strictly below every other member
starts with `x`. -/
theorem sorted_head_of_strict_min {l : List Bytes} {x : Bytes}
    (hs : l.Sorted (· ≤ ·)) (hx : x ∈ l)
    (hmin : ∀ y ∈ l, y ≠ x → x < y) : l.head? = some x := by
  cases l with
  | nil => cases hx
  | cons h t =>
    have : h = x := by
      by_contra hh
      have hxt : x ∈ t := by
        rcases List.mem_cons.mp hx with h1 | h1
        · exact absurd h1.symm hh
        · exact h1
      have h1 : x < h := hmin h (List.mem_cons_self h t) hh
      have h2 : h ≤ x := List.rel_of_sorted_cons hs x hxt
      exact absurd (lt_of_le_of_lt h2 h1) (lt_irrefl _)
    rw [this]
    rfl

/-- Every path produced by the walk below prefix `p` strictly extends `p`
by a separator byte. -/
theorem walkSubdirs_key_ext (p : Bytes) (cs : List FSEntry) :
    ∀ kv ∈ walkSubdirs p cs, ∃ s, kv.1 = p ++ sepByte :: s := by
  match cs with
  | [] => intro kv h; simp [walkSubdirs] at h
  | FSEntry.file n m c meta :: cs =>
    intro kv h
    simp only [walkSubdirs] at h
    exact walkSubdirs_key_ext p cs kv h
  | FSEntry.dir n m meta gs :: cs =>
    intro kv h
    simp only [walkSubdirs, List.mem_append] at h
    rcases h with (h | h) | h
    · simp only [directEntries, List.mem_map] at h
      obtain ⟨c, -, rfl⟩ := h
      exact ⟨n ++ sepByte :: entryName c, by
        simp [pjoin, List.append_assoc]⟩
    · obtain ⟨s, hs⟩ := walkSubdirs_key_ext (pjoin p n) gs kv h
      refine ⟨n ++ sepByte :: s, ?_⟩
      rw [hs]
      simp [pjoin, List.append_assoc]
    · exact walkSubdirs_key_ext p cs kv h

theorem walkDir_key_ext (p : Bytes) (cs : List FSEntry) :
    ∀ kv ∈ walkDir p cs, ∃ s, kv.1 = p ++ sepByte :: s := by
  intro kv h
  rcases List.mem_append.mp h with h | h
  · simp only [directEntries, List.mem_map] at h
    obtain ⟨c, -, rfl⟩ := h
    exact ⟨entryName c, rfl⟩
  · exact walkSubdirs_key_ext p cs kv h

/-- The root path is strictly below every other member of `file_list`. -/
theorem rootPath_strict_min (cs : List FSEntry) :
    ∀ y ∈ file_list cs, y ≠ rootPath → rootPath < y := by
  intro y hy hne
  rcases List.mem_cons.mp hy with h | h
  · exact absurd h hne
  · obtain ⟨kv, hkv, rfl⟩ := List.mem_map.mp h
    obtain ⟨s, hs⟩ := walkDir_key_ext rootPath cs kv hkv
    rw [hs]
    exact lt_append_cons rootPath s sepByte

/-- Claim C4: the sorted entry list of the archiver starts with the root
entry ".", contains exactly the walked relative paths of all directories
and files (it is a permutation of `file_list`, hence contains each walked
path), is sorted by the locale-independent bytewise collation, and places
every directory strictly before its own contents (a proper prefix always
comes first). -/
theorem sortedFileList_spec (cs : List FSEntry) :
    (sortedFileList cs).head? = some rootPath ∧
    sortedFileList cs ~ file_list cs ∧
    (∀ p ∈ file_list cs, p ∈ sortedFileList cs) ∧
    (sortedFileList cs).Sorted (· ≤ ·) ∧
    ∀ i j : Nat, i < (sortedFileList cs).length →
      j < (sortedFileList cs).length →
      (sortedFileList cs).getD i [] <+: (sortedFileList cs).getD j [] →
      (sortedFileList cs).getD i [] ≠ (sortedFileList cs).getD j [] →
      i < j := by
  have hperm : sortedFileList cs ~ file_list cs :=
    List.perm_insertionSort _ _
  have hsorted : (sortedFileList cs).Sorted (· ≤ ·) :=
    List.sorted_insertionSort _ _
  refine ⟨?_, hperm, ?_, hsorted, ?_⟩
  · refine sorted_head_of_strict_min hsorted ?_ ?_
    · exact hperm.mem_iff.mpr (List.mem_cons_self _ _)
    · intro y hy hne
      exact rootPath_strict_min cs y (hperm.mem_iff.mp hy) hne
  · intro p hp
    exact hperm.mem_iff.mpr hp
  · intro i j hi hj hpre hne
    rw [List.getD_eq_getElem _ _ hi, List.getD_eq_getElem _ _ hj] at hpre hne
    by_contra hij
    rcases Nat.lt_or_ge j i with hlt | hge
    · have h1 : (sortedFileList cs).get ⟨j, hj⟩ ≤
          (sortedFileList cs).get ⟨i, hi⟩ :=
        hsorted.rel_get_of_lt hlt
      have h2 : (sortedFileList cs).get ⟨i, hi⟩ <
          (sortedFileList cs).get ⟨j, hj⟩ :=
        lt_of_prefix_ne hpre hne
      exact absurd (lt_of_le_of_lt h1 h2) (lt_irrefl _)
    · have hij2 : i = j := Nat.le_antisymm hge (Nat.not_lt.mp hij)
      subst hij2
      exact hne rfl

/-! ### Determinism of the archiver

Two source trees are byte-identical when they have the same entries with
the same names, kinds, modes and file contents; metadata (ownership,
timestamps) and the on-disk listing order of each directory are machine
artifacts and may differ.  `normTree` below computes this content
identity as a normal form; the determinism theorem says the archive
depends only on it. -/

/-- Payload with its metadata blanked: the part of a payload that the
written entry can depend on. -/
def stripPayload (pl : TarPayload) : TarPayload := { pl with meta := blankMeta }

/-- Walked entry with its payload metadata blanked. -/
def stripKV (kv : Bytes × TarPayload) : Bytes × TarPayload :=
  (kv.1, stripPayload kv.2)

/-- Comparison of children by name, used to normalize listing order. -/
def nameLe (a b : FSEntry) : Prop := entryName a ≤ entryName b

instance : DecidableRel nameLe := fun a b =>
  (inferInstance : Decidable (entryName a ≤ entryName b))

mutual
/-- Content normal form of an entry: metadata blanked and, below a
directory, children sorted by name recursively. -/
def normTree : FSEntry → FSEntry
  | .file n m c _ => .file n m c blankMeta
  | .dir n m _ gs =>
      .dir n m blankMeta (List.insertionSort nameLe (normForest gs))
/-- Content normal forms of a list of children, in order. -/
def normForest : List FSEntry → List FSEntry
  | [] => []
  | c :: cs => normTree c :: normForest cs
end

/-- Content normal form of the archived root: children normalized and
sorted by name. -/
def normRoot (cs : List FSEntry) : List FSEntry :=
  List.insertionSort nameLe (normForest cs)

theorem normForest_eq_map (cs : List FSEntry) :
    normForest cs = cs.map normTree := by
  induction cs with
  | nil => rfl
  | cons c cs ih => simp [normForest, ih]

theorem entryName_normTree (c : FSEntry) :
    entryName (normTree c) = entryName c := by
  cases c <;> simp [normTree, entryName]

theorem entryIsDir_normTree (c : FSEntry) :
    entryIsDir (normTree c) = entryIsDir c := by
  cases c <;> simp [normTree, entryIsDir]

theorem entryPayload_normTree (c : FSEntry) :
    entryPayload (normTree c) = stripPayload (entryPayload c) := by
  cases c <;> simp [normTree, entryPayload, stripPayload]

theorem stripKV_stripKV (kv : Bytes × TarPayload) :
    stripKV (stripKV kv) = stripKV kv := rfl

theorem filter_isDir_map_norm (cs : List FSEntry) :
    (cs.map normTree).filter entryIsDir =
      (cs.filter entryIsDir).map normTree := by
  induction cs with
  | nil => rfl
  | cons c cs ih => by_cases hc : entryIsDir c <;>
      simp [entryIsDir_normTree, hc, ih]

theorem filter_notDir_map_norm (cs : List FSEntry) :
    (cs.map normTree).filter (fun c => !entryIsDir c) =
      (cs.filter (fun c => !entryIsDir c)).map normTree := by
  induction cs with
  | nil => rfl
  | cons c cs ih => by_cases hc : entryIsDir c <;>
      simp [entryIsDir_normTree, hc, ih]

theorem directEntries_norm (p : Bytes) (cs : List FSEntry) :
    directEntries p (cs.map normTree) = (directEntries p cs).map stripKV := by
  unfold directEntries
  rw [filter_isDir_map_norm, filter_notDir_map_norm, ← List.map_append,
    List.map_map, List.map_map]
  have : ((fun c => (pjoin p (entryName c), entryPayload c)) ∘ normTree) =
      (stripKV ∘ fun c => (pjoin p (entryName c), entryPayload c)) := by
    funext c
    simp [Function.comp, stripKV, entryName_normTree, entryPayload_normTree]
  rw [this]

/-- Entries contributed below one child of a directory at path `p`. -/
def subChunk (p : Bytes) : FSEntry → List (Bytes × TarPayload)
  | .file _ _ _ _ => []
  | .dir n _ _ gs =>
      directEntries (pjoin p n) gs ++ walkSubdirs (pjoin p n) gs

theorem walkSubdirs_eq_flatMap (p : Bytes) (cs : List FSEntry) :
    walkSubdirs p cs = cs.flatMap (subChunk p) := by
  induction cs with
  | nil => simp [walkSubdirs]
  | cons c cs ih => cases c <;> simp [walkSubdirs, subChunk, ih]

/-- Walking is congruent under reordering of the children lists at the
top level: the entry multiset does not depend on listing order. -/
theorem walkDir_perm (p : Bytes) {cs1 cs2 : List FSEntry} (h : cs1 ~ cs2) :
    walkDir p cs1 ~ walkDir p cs2 := by
  unfold walkDir
  refine Perm.append ?_ ?_
  · unfold directEntries
    exact ((h.filter _).append (h.filter _)).map _
  · rw [walkSubdirs_eq_flatMap, walkSubdirs_eq_flatMap]
    exact h.flatMap_right _

/-- Up to metadata, the walk of a normalized tree is a permutation of the
walk of the original tree. -/
theorem walkDir_norm_perm (cs : List FSEntry) (p : Bytes) :
    (walkDir p (normRoot cs)).map stripKV ~ (walkDir p cs).map stripKV := by
  have hsort : normRoot cs ~ cs.map normTree := by
    rw [normRoot, ← normForest_eq_map]
    exact List.perm_insertionSort _ _
  refine ((walkDir_perm p hsort).map _).trans ?_
  unfold walkDir
  rw [List.map_append, List.map_append]
  refine Perm.append ?_ ?_
  · rw [directEntries_norm, List.map_map]
    have : (stripKV ∘ stripKV) = stripKV := funext stripKV_stripKV
    rw [this]
  · rw [walkSubdirs_eq_flatMap, walkSubdirs_eq_flatMap, List.map_flatMap,
      List.map_flatMap, List.flatMap_map]
    refine Perm.flatMap_left cs ?_
    intro c hc
    cases c with
    | file n m co meta => simp [Function.comp, subChunk, normTree]
    | dir n m meta gs =>
      have hrec := walkDir_norm_perm gs (pjoin p n)
      simp only [Function.comp, subChunk, normTree]
      simpa [walkDir, normRoot] using hrec
termination_by sizeOf cs
decreasing_by
  have h1 := List.sizeOf_lt_of_mem hc
  simp only [FSEntry.dir.sizeOf_spec] at h1
  omega

/-- Up to metadata, the association of walked paths to payloads depends
only on the content identity of the tree (and the mode of the root). -/
theorem archiveAssoc_norm_perm (rm : Nat) (m1 m2 : FileMeta)
    (cs1 cs2 : List FSEntry) (h : normRoot cs1 = normRoot cs2) :
    (archiveAssoc rm m1 cs1).map stripKV ~
      (archiveAssoc rm m2 cs2).map stripKV := by
  unfold archiveAssoc
  simp only [List.map_cons]
  have hh : stripKV (rootPath, rootPayload rm m1) =
      stripKV (rootPath, rootPayload rm m2) := rfl
  rw [hh]
  refine Perm.cons _ ?_
  refine ((walkDir_norm_perm cs1 rootPath).symm.trans ?_).trans
    (walkDir_norm_perm cs2 rootPath)
  rw [h]

/-- Association lookup is stable under permutation when keys are
distinct. -/
theorem lookupPath_perm {l1 l2 : List (Bytes × TarPayload)} (h : l1 ~ l2) :
    (l1.map Prod.fst).Nodup → ∀ p, lookupPath p l1 = lookupPath p l2 := by
  induction h with
  | nil => intro _ p; rfl
  | cons kv h ih =>
    intro hnd p
    obtain ⟨k, v⟩ := kv
    simp only [List.map_cons, List.nodup_cons] at hnd
    simp only [lookupPath]
    by_cases hp : p = k
    · simp [hp]
    · simp only [if_neg hp]
      exact ih hnd.2 p
  | swap x y l =>
    intro hnd p
    obtain ⟨k1, v1⟩ := x
    obtain ⟨k2, v2⟩ := y
    simp only [List.map_cons, List.nodup_cons, List.mem_cons, not_or] at hnd
    simp only [lookupPath]
    have hne : ¬k2 = k1 := hnd.1.1
    by_cases h1 : p = k1 <;> by_cases h2 : p = k2
    · exact absurd (h2 ▸ h1 : k2 = k1) hne
    · simp only [if_pos h1, if_neg h2, if_neg hne]
    · simp [h1, h2, hne]
    · simp [h1, h2]
  | trans h1 h2 ih1 ih2 =>
    intro hnd p
    have hnd2 := ((h1.map Prod.fst).nodup_iff).mp hnd
    exact (ih1 hnd p).trans (ih2 hnd2 p)

/-- Lookup in a metadata-blanked association is the metadata-blanked
lookup. -/
theorem lookupPath_map_strip (p : Bytes) (l : List (Bytes × TarPayload)) :
    lookupPath p (l.map stripKV) = (lookupPath p l).map stripPayload := by
  induction l with
  | nil => rfl
  | cons kv t ih =>
    obtain ⟨k, v⟩ := kv
    simp only [List.map_cons, stripKV, lookupPath]
    by_cases hp : p = k <;> simp [hp, ih, stripPayload]

/-- The written entry for a path only depends on the metadata-blanked
payload: `reset` overwrites exactly the metadata fields. -/
theorem reset_tarInfoOf_strip (p : Bytes) (pl : TarPayload) :
    reset (tarInfoOf p (stripPayload pl)) = reset (tarInfoOf p pl) := rfl

theorem mapFst_stripKV (l : List (Bytes × TarPayload)) :
    (l.map stripKV).map Prod.fst = l.map Prod.fst := by
  rw [List.map_map]
  rfl

theorem archiveAssoc_keys (rm : Nat) (m : FileMeta) (cs : List FSEntry) :
    (archiveAssoc rm m cs).map Prod.fst = file_list cs := by
  simp [archiveAssoc, file_list]

/-- Claim C1: the archiver is deterministic.  Whenever two invocations
archive byte-identical source trees (same names, kinds, modes and file
contents; metadata and per-directory listing order arbitrary, as they vary
with machine and modification times; the fixed "C" collation makes the
ambient locale irrelevant), with distinct entry paths as on a real
filesystem, the two output archives are identical. -/
theorem archive_deterministic (rm1 rm2 : Nat) (meta1 meta2 : FileMeta)
    (cs1 cs2 : List FSEntry) (hmode : rm1 = rm2)
    (htree : normRoot cs1 = normRoot cs2)
    (hnd : (file_list cs1).Nodup) :
    archive_deterministically rm1 meta1 cs1 =
      archive_deterministically rm2 meta2 cs2 := by
  subst hmode
  have hassoc : (archiveAssoc rm1 meta1 cs1).map stripKV ~
      (archiveAssoc rm1 meta2 cs2).map stripKV :=
    archiveAssoc_norm_perm rm1 meta1 meta2 cs1 cs2 htree
  have hfl : file_list cs1 ~ file_list cs2 := by
    have h := hassoc.map Prod.fst
    rwa [mapFst_stripKV, mapFst_stripKV, archiveAssoc_keys,
      archiveAssoc_keys] at h
  have hsfl : sortedFileList cs1 = sortedFileList cs2 := by
    have hp : sortedFileList cs1 ~ sortedFileList cs2 :=
      (List.perm_insertionSort _ _).trans
        (hfl.trans (List.perm_insertionSort _ _).symm)
    have hs1 : (sortedFileList cs1).Sorted (· ≤ ·) :=
      List.sorted_insertionSort _ _
    have hs2 : (sortedFileList cs2).Sorted (· ≤ ·) :=
      List.sorted_insertionSort _ _
    exact List.eq_of_perm_of_sorted hp hs1 hs2
  have hndkeys : ((archiveAssoc rm1 meta1 cs1).map stripKV |>.map
      Prod.fst).Nodup := by
    rwa [mapFst_stripKV, archiveAssoc_keys]
  have hfun : ∀ p, (stat rm1 meta1 cs1 p).map (fun pl => reset (tarInfoOf p pl))
      = (stat rm1 meta2 cs2 p).map (fun pl => reset (tarInfoOf p pl)) := by
    intro p
    have h1 := lookupPath_perm hassoc hndkeys p
    rw [lookupPath_map_strip, lookupPath_map_strip] at h1
    unfold stat
    rcases hs1 : lookupPath p (archiveAssoc rm1 meta1 cs1) with _ | pl1 <;>
      rcases hs2 : lookupPath p (archiveAssoc rm1 meta2 cs2) with _ | pl2 <;>
        rw [hs1, hs2] at h1 <;>
          first
          | rfl
          | (simp at h1; done)
          | (have h2 : stripPayload pl1 = stripPayload pl2 := by simpa using h1
             have h3 : reset (tarInfoOf p pl1) = reset (tarInfoOf p pl2) :=
               (reset_tarInfoOf_strip p pl1).symm.trans
                 ((congrArg (fun q => reset (tarInfoOf p q)) h2).trans
                   (reset_tarInfoOf_strip p pl2))
             simp [h3])
  unfold archive_deterministically
  simp only [GzipTarFile.mk.injEq, true_and]
  rw [hsfl]
  have : (fun p => (stat rm1 meta1 cs1 p).map (fun pl => reset (tarInfoOf p pl)))
      = (fun p => (stat rm1 meta2 cs2 p).map (fun pl => reset (tarInfoOf p pl))) :=
    funext hfun
  rw [this]

/-- Witness for `sortedFileList_spec` at a concrete two-entry tree:
its sorted list starts with ".", and the directory entry (index 1) comes
before nothing it prefixes later; the root (index 0) precedes the entry at
index 1 it prefixes. -/
theorem sortedFileList_spec_witness :
    (sortedFileList
        [FSEntry.dir [97] 1 blankMeta [], FSEntry.file [98] 2 [] blankMeta]).head?
      = some rootPath ∧ (0 : Nat) < 1 := by
  have hev : sortedFileList
      [FSEntry.dir [97] 1 blankMeta [], FSEntry.file [98] 2 [] blankMeta]
      = [[46], [46, 47, 97], [46, 47, 98]] := by
    simp [sortedFileList, file_list, walkDir, walkSubdirs, directEntries,
      entryIsDir, entryName, entryPayload, pjoin, sepByte, rootPath,
      List.insertionSort, List.orderedInsert]
    decide
  have h := sortedFileList_spec
    [FSEntry.dir [97] 1 blankMeta [], FSEntry.file [98] 2 [] blankMeta]
  refine ⟨h.1, ?_⟩
  refine h.2.2.2.2 0 1 ?_ ?_ ?_ ?_
  · rw [hev]; decide
  · rw [hev]; decide
  · rw [hev]; decide
  · rw [hev]; decide

/-- Witness for `archive_deterministic`: two concrete trees with the same
names, kinds, modes and contents but different metadata and different
listing order produce the same archive. -/
theorem archive_deterministic_witness :
    (5 : Nat) = 5 ∧
    normRoot [FSEntry.dir [98] 7 ⟨5, 6, "x", "y", 99⟩ [],
        FSEntry.file [97] 6 [1, 2] ⟨1, 2, "a", "b", 3⟩] =
      normRoot [FSEntry.file [97] 6 [1, 2] ⟨7, 8, "c", "d", 9⟩,
        FSEntry.dir [98] 7 ⟨0, 1, "u", "v", 2⟩ []] ∧
    (file_list [FSEntry.dir [98] 7 ⟨5, 6, "x", "y", 99⟩ [],
        FSEntry.file [97] 6 [1, 2] ⟨1, 2, "a", "b", 3⟩]).Nodup ∧
    archive_deterministically 5 ⟨9, 9, "q", "r", 8⟩
        [FSEntry.dir [98] 7 ⟨5, 6, "x", "y", 99⟩ [],
          FSEntry.file [97] 6 [1, 2] ⟨1, 2, "a", "b", 3⟩] =
      archive_deterministically 5 ⟨0, 0, "s", "t", 1⟩
        [FSEntry.file [97] 6 [1, 2] ⟨7, 8, "c", "d", 9⟩,
          FSEntry.dir [98] 7 ⟨0, 1, "u", "v", 2⟩ []] := by
  have h1 : normRoot [FSEntry.dir [98] 7 ⟨5, 6, "x", "y", 99⟩ [],
      FSEntry.file [97] 6 [1, 2] ⟨1, 2, "a", "b", 3⟩] =
      normRoot [FSEntry.file [97] 6 [1, 2] ⟨7, 8, "c", "d", 9⟩,
        FSEntry.dir [98] 7 ⟨0, 1, "u", "v", 2⟩ []] := by
    simp [normRoot, normForest, normTree, List.insertionSort,
      List.orderedInsert, nameLe, entryName, blankMeta]
    rw [if_neg (by decide), if_pos (by decide)]
  have h2 : (file_list [FSEntry.dir [98] 7 ⟨5, 6, "x", "y", 99⟩ [],
      FSEntry.file [97] 6 [1, 2] ⟨1, 2, "a", "b", 3⟩]).Nodup := by
    have hev : file_list [FSEntry.dir [98] 7 ⟨5, 6, "x", "y", 99⟩ [],
        FSEntry.file [97] 6 [1, 2] ⟨1, 2, "a", "b", 3⟩]
        = [[46], [46, 47, 98], [46, 47, 97]] := by
      simp [file_list, walkDir, walkSubdirs, directEntries, entryIsDir,
        entryName, entryPayload, pjoin, sepByte, rootPath]
    rw [hev]
    decide
  exact ⟨rfl, h1, h2, archive_deterministic 5 5 _ _ _ _ rfl h1 h2⟩

/-! ## Atomicity of the archiver (lines 96-108)

The writes of one archiver run are modelled as successive transformations
of a filesystem state mapping paths to visible file contents.  All writes
target the temporary file derived from the destination name; the final
step renames it onto the destination.  A run that raises before the
rename has executed some proper prefix of the steps. -/

/-- Filesystem state: what is visible at each path.  A (possibly still
incomplete) archive file is the list of tar entries written so far. -/
abbrev FS : Type := String → Option (List TarInfo)

/-- Writing (with `some`) or removing (with `none`) one path. -/
def fsSet (fs : FS) (p : String) (v : Option (List TarInfo)) : FS :=
  fun q => if q = p then v else fs q

/-- The temporary file of line 99, derived from the destination name. -/
def temp_file (dest : String) : String := dest ++ ".temp~"

/-- The successive writes of one run: opening the temporary file creates
it empty, and after the `k`-th write the first `k` entries are visible at
the temporary path. -/
def writeSteps (entries : List TarInfo) (dest : String) : List (FS → FS) :=
  (List.range (entries.length + 1)).map
    (fun k fs => fsSet fs (temp_file dest) (some (entries.take k)))

/-- The final `os.rename(temp_file, dest_archive)` of line 108: the
destination receives whatever the temporary path holds, and the temporary
path disappears. -/
def renameStep (dest : String) : FS → FS :=
  fun fs => fsSet (fsSet fs dest (fs (temp_file dest))) (temp_file dest) none

/-- All filesystem steps of one archiver run, in order: the writes to the
temporary file, then the rename. -/
def archiveSteps (rootMode : Nat) (rootMeta : FileMeta) (cs : List FSEntry)
    (dest : String) : List (FS → FS) :=
  writeSteps (archive_deterministically rootMode rootMeta cs).entries dest
    ++ [renameStep dest]

/-- Running an initial segment of the steps. -/
def runSteps (steps : List (FS → FS)) (fs : FS) : FS :=
  steps.foldl (fun s f => f s) fs

theorem temp_file_ne (dest : String) : dest ≠ temp_file dest := by
  intro h
  have h2 := congrArg String.length h
  rw [temp_file, String.length_append] at h2
  have h3 : (".temp~" : String).length = 6 := rfl
  rw [h3] at h2
  omega

theorem runSteps_writes_other (ks : List Nat) (entries : List TarInfo)
    (dest : String) (fs : FS) :
    runSteps (ks.map (fun k fs => fsSet fs (temp_file dest)
      (some (entries.take k)))) fs dest = fs dest := by
  induction ks generalizing fs with
  | nil => rfl
  | cons k ks ih =>
    simp only [List.map_cons, runSteps, List.foldl_cons]
    have h := ih (fsSet fs (temp_file dest) (some (entries.take k)))
    rw [runSteps] at h
    rw [h, fsSet, if_neg (temp_file_ne dest)]

theorem runSteps_writes_temp (entries : List TarInfo) (dest : String)
    (fs : FS) :
    runSteps (writeSteps entries dest) fs (temp_file dest) = some entries := by
  unfold writeSteps runSteps
  rw [List.range_succ, List.map_append, List.foldl_append]
  simp [fsSet]

/-- Claim C3: atomicity of the archiver.  Any run that stops at a step
before the final rename (any `k < length`, since the rename is the last
step) leaves the destination path exactly as it was, so no incomplete
archive is ever visible there; and the complete run makes the destination
hold exactly the finished archive handed over by the rename. -/
theorem archive_atomic (rootMode : Nat) (rootMeta : FileMeta)
    (cs : List FSEntry) (dest : String) (fs : FS) :
    (∀ k, k < (archiveSteps rootMode rootMeta cs dest).length →
        runSteps ((archiveSteps rootMode rootMeta cs dest).take k) fs dest
          = fs dest) ∧
      runSteps (archiveSteps rootMode rootMeta cs dest) fs dest =
        some (archive_deterministically rootMode rootMeta cs).entries := by
  constructor
  · intro k hk
    have hlen : k ≤ (writeSteps
        (archive_deterministically rootMode rootMeta cs).entries dest).length := by
      unfold archiveSteps at hk
      rw [List.length_append] at hk
      simp only [List.length_cons, List.length_nil] at hk
      omega
    unfold archiveSteps
    rw [List.take_append_of_le_length hlen]
    unfold writeSteps
    rw [← List.map_take]
    exact runSteps_writes_other _ _ dest fs
  · unfold archiveSteps runSteps
    rw [List.foldl_append]
    have h := runSteps_writes_temp
      (archive_deterministically rootMode rootMeta cs).entries dest fs
    rw [runSteps] at h
    simp only [List.foldl_cons, List.foldl_nil]
    rw [renameStep, fsSet, if_neg (temp_file_ne dest), fsSet,
      if_pos rfl, h]

/-- Witness for `archive_atomic`: archiving an empty tree to path "d" over
an empty filesystem; stopping after one step leaves nothing at "d". -/
theorem archive_atomic_witness :
    1 < (archiveSteps 0 blankMeta [] "d").length ∧
      runSteps ((archiveSteps 0 blankMeta [] "d").take 1)
        (fun _ => none) "d" = none := by
  have hlen : (archiveSteps 0 blankMeta [] "d").length = 3 := by
    simp [archiveSteps, writeSteps, archive_deterministically,
      sortedFileList, file_list, walkDir, walkSubdirs, directEntries,
      stat, archiveAssoc, lookupPath, List.insertionSort]
  refine ⟨by rw [hlen]; omega, ?_⟩
  exact (archive_atomic 0 blankMeta [] "d" (fun _ => none)).1 1
    (by rw [hlen]; omega)

end Servo
